import Mathlib

/-!
Verification development for the Search-tool repository.

Strings from the JavaScript / Python sources are embedded as `List Char`.
Each definition is a shallow embedding of a function of the repository;
the source file and symbol are named in its doc comment.
-/

namespace SearchTool

/-- Boolean test that `needle` is a prefix of `hay` (character lists). -/
def isPrefixB : List Char → List Char → Bool
  | [], _ => true
  | _ :: _, [] => false
  | a :: as, b :: bs => (a == b) && isPrefixB as bs

/-- Boolean test that `needle` occurs as a contiguous substring of `hay`;
embeds JavaScript `hay.includes(needle)`. -/
def isInfixB (needle : List Char) : List Char → Bool
  | [] => needle.isEmpty
  | c :: rest => isPrefixB needle (c :: rest) || isInfixB needle rest

/-- Embeds JavaScript `s.toLowerCase()` (per-character lowering). -/
def lowerStr (s : List Char) : List Char := s.map Char.toLower

/-- One entry of a document's `page_info` array
(`{page: int, text: string}`); `text = none` models a missing or null
`text` field, `some []` models the empty string. -/
structure PageData where
  page : Nat
  text : Option (List Char)
deriving DecidableEq

/-- The fields of a search-hit document object that the page locator and
the result cards read: `name` (filename) and `page_info`
(`none` models a missing/null `page_info` field). -/
structure Document where
  name : List Char
  page_info : Option (List PageData)
deriving DecidableEq

/-- The loop-body condition of `findPageNumber`
(src/frontend/src/lib/api.js lines 112-115):
`pageData.text && pageData.text.toLowerCase().includes(queryLower)`.
A missing/null/empty `text` is falsy in JavaScript, so it never matches. -/
def textMatches (query : List Char) (pd : PageData) : Bool :=
  match pd.text with
  | none => false
  | some t => !t.isEmpty && isInfixB (lowerStr query) (lowerStr t)

/-- Embeds `findPageNumber(document, query)`
(src/frontend/src/lib/api.js lines 107-119):
returns null when `page_info` or `query` is falsy, otherwise scans
`page_info` in array order and returns the `page` of the first entry
whose text case-insensitively contains the query. -/
def findPageNumber (doc : Document) (query : List Char) : Option Nat :=
  match doc.page_info with
  | none => none
  | some pages =>
    if query.isEmpty then none
    else (pages.find? (textMatches query)).map (·.page)

/-- The truthiness test applied to `pageData.text` by the loop of
`findPageNumber`: false for a missing/null or empty `text`. -/
def keepText (pd : PageData) : Bool :=
  match pd.text with
  | none => false
  | some t => !t.isEmpty

/-- The `page_info` of the spec's PageLocator example:
`[{page:1,text:"alpha"},{page:2,text:"beta alpha"}]`. -/
def alphaPages : List PageData :=
  [⟨1, some ("alpha".toList)⟩, ⟨2, some ("beta alpha".toList)⟩]

/-- A document carrying `alphaPages`. -/
def alphaDoc : Document := ⟨"doc.pdf".toList, some alphaPages⟩

/-- The configured source tables: `DATABASE_TABLES` in the deployment
environment file (src/unnamed/part_000 line 232):
`FORMS_MASTER,VESSEL_CERTIFICATES,SurveyCertificates`. -/
def configuredTables : List (List Char) :=
  ["FORMS_MASTER".toList, "VESSEL_CERTIFICATES".toList,
   "SurveyCertificates".toList]

/-- Modelled from the spec: `DocumentIdentity.encode(table, rowId)` — the
backend identity module is not under src/ (src/frontend/src/lib/api.js
only documents the composite format `"VESSEL_CERTIFICATES:456"`).
Concatenates table name and row id with the fixed delimiter ':'. -/
def encode (table rowId : List Char) : List Char := table ++ ':' :: rowId

/-- Split a character list at the first occurrence of `c`; `none` when `c`
is absent. -/
def splitFirst (c : Char) : List Char → Option (List Char × List Char)
  | [] => none
  | x :: xs =>
    if x = c then some ([], xs)
    else (splitFirst c xs).map (fun p => (x :: p.1, p.2))

/-- Modelled from the spec: `DocumentIdentity.decode(id)` — the backend
identity module is not under src/. Splits at the first delimiter and
fails (`none`, the spec's MalformedIdentity) if the delimiter is absent
or the table name is not among the configured set. -/
def decode (id : List Char) : Option (List Char × List Char) :=
  match splitFirst ':' id with
  | none => none
  | some (t, r) => if t ∈ configuredTables then some (t, r) else none

/-- Embeds `getSource` (src/unnamed/part_004 lines 30-35): maps a
composite id to a source-table label by prefix match. -/
def getSource (id : List Char) : Option (List Char) :=
  if isPrefixB ("FORMS_MASTER".toList) id then some ("Forms".toList)
  else if isPrefixB ("VESSEL_CERTIFICATES".toList) id then
    some ("Vessel Certs".toList)
  else if isPrefixB ("SurveyCertificates".toList) id then
    some ("Survey Certs".toList)
  else none

/-- Embeds `MAX_CONTENT_LENGTH` from the deployment environment file
(src/unnamed/part_000 line 230): the configured maximum character length
of extracted content. -/
def MAX_CONTENT_LENGTH : Nat := 50000

/-- Embeds the `BATCH_SIZE` default described by src/explain.md
(documents per batch, 50). -/
def BATCH_SIZE : Nat := 50

/-- Embeds `BaseProcessor.truncate_text(text, max_length)` as described by
src/explain.md lines 150-153 and 521: a hard cutoff of the text to at
most `maxLength` characters. -/
def truncate_text (text : List Char) (maxLength : Nat) : List Char :=
  text.take maxLength

/-- Collapse runs of consecutive spaces to a single space. -/
def squeezeSpaces : List Char → List Char
  | [] => []
  | c :: rest =>
    match squeezeSpaces rest with
    | [] => [c]
    | d :: tail => if c = ' ' && d = ' ' then d :: tail else c :: d :: tail

/-- Embeds `BaseProcessor.clean_text(text)` as described by src/explain.md
lines 146-148 (the backend Python itself is not under src/): whitespace
normalization and control-character stripping, applied before truncation. -/
def clean_text (text : List Char) : List Char :=
  squeezeSpaces (text.filterMap (fun c =>
    if c.isWhitespace then some ' '
    else if c.toNat < 32 then none
    else some c))

/-- The per-document outcome reaching the indexing loop of
`SearchEngine.index_documents` (src/explain.md lines 396-459): the blob
download fails, the extractor raises (caught inside
`ProcessorFactory.process_document`), the format has no processor, or
extraction succeeds with raw text. -/
inductive StepOutcome where
  | fetchFailed
  | extractFailed
  | unsupported
  | extracted (text : List Char)
deriving DecidableEq

/-- The run counters of src/explain.md step 2 / step 5. -/
structure RunStats where
  total : Nat
  indexed : Nat
  failed : Nat
  skipped : Nat
deriving DecidableEq

/-- In-flight state of one indexing run: counters, the current in-memory
batch of index-record contents, and the batches already flushed to the
search index, in flush order. -/
structure RunState where
  stats : RunStats
  batch : List (List Char)
  flushed : List (List (List Char))
deriving DecidableEq

/-- One iteration of the indexing loop (src/explain.md lines 402-446):
download failure increments `failed`; an extraction failure — the
extractor raising or an unsupported format — increments `skipped`; a
successful extraction builds the record (cleaned, truncated content),
increments `indexed`, and flushes the batch once it reaches
`BATCH_SIZE`. Every arm continues with the next document. -/
def processDoc (s : RunState) (o : StepOutcome) : RunState :=
  match o with
  | .fetchFailed =>
      { s with stats := { s.stats with failed := s.stats.failed + 1 } }
  | .extractFailed =>
      { s with stats := { s.stats with skipped := s.stats.skipped + 1 } }
  | .unsupported =>
      { s with stats := { s.stats with skipped := s.stats.skipped + 1 } }
  | .extracted t =>
      let content := truncate_text (clean_text t) MAX_CONTENT_LENGTH
      let batch := s.batch ++ [content]
      if BATCH_SIZE ≤ batch.length then
        { stats := { s.stats with indexed := s.stats.indexed + 1 },
          batch := [], flushed := s.flushed ++ [batch] }
      else
        { stats := { s.stats with indexed := s.stats.indexed + 1 },
          batch := batch, flushed := s.flushed }

/-- Embeds `SearchEngine.index_documents` (src/explain.md lines 390-459):
`total` is the number of enumerated documents, the loop processes each
document, and the final partial batch is flushed after the loop. Returns
the final statistics and the flushed batches. -/
def index_documents (docs : List StepOutcome) :
    RunStats × List (List (List Char)) :=
  let s := docs.foldl processDoc ⟨⟨docs.length, 0, 0, 0⟩, [], []⟩
  (s.stats, if s.batch.isEmpty then s.flushed else s.flushed ++ [s.batch])

/-- Outcomes counted by the `indexed` counter. -/
def isIndexedOutcome : StepOutcome → Bool
  | .extracted _ => true
  | _ => false

/-- Outcomes counted by the `failed` counter. -/
def isFailedOutcome : StepOutcome → Bool
  | .fetchFailed => true
  | _ => false

/-- Outcomes counted by the `skipped` counter. -/
def isSkippedOutcome : StepOutcome → Bool
  | .extractFailed => true
  | .unsupported => true
  | _ => false

/-- The client state of IndexingPanel: the `isIndexing` React flag, plus
`active`, the number of in-flight `triggerIndexing` requests (a count of
requests started and not yet completed, implicit in the async flow). -/
structure PanelState where
  isIndexing : Bool
  active : Nat
deriving DecidableEq

/-- The two events of `handleIndexDocuments`
(src/frontend/src/components/IndexingPanel.js lines 23-41): the handler
is invoked (`trigger`), or an in-flight `triggerIndexing` request settles
and its `finally` block runs (`complete`). -/
inductive PanelEvent where
  | trigger
  | complete
deriving DecidableEq

/-- Embeds the body of `handleIndexDocuments`: on `trigger`,
`if (isIndexing) return` — the call is dropped, nothing is queued —
otherwise `setIsIndexing(true)` and one request starts; on `complete`,
the `finally` block runs `setIsIndexing(false)` and the request ends. -/
def panelStep (s : PanelState) (e : PanelEvent) : PanelState :=
  match e with
  | .trigger => if s.isIndexing then s else ⟨true, s.active + 1⟩
  | .complete => ⟨false, s.active - 1⟩

/-- The panel's initial state: `useState(false)`, no request in flight. -/
def panelInit : PanelState := ⟨false, 0⟩

/-- Modelled from the spec: the backend's process-wide run-state flag
(§5 Mutual exclusion) — the Flask handler for POST /index is not under
src/. -/
inductive RunFlag where
  | idle
  | running
deriving DecidableEq

/-- Modelled from the spec: the response to a run request — started, or
rejected with the busy signal. -/
inductive IndexResponse where
  | started
  | busy
deriving DecidableEq

/-- Modelled from the spec: POST /index checks-and-sets the run-state
flag atomically; a request while a run is `running` is answered `busy`
immediately — no second run starts and nothing is queued — and a request
while `idle` starts the single run. -/
def postIndex : RunFlag → RunFlag × IndexResponse
  | .running => (.running, .busy)
  | .idle => (.running, .started)

/-- Embeds JavaScript `s.trim()`: strips leading and trailing whitespace. -/
def jsTrim (s : List Char) : List Char :=
  ((s.dropWhile Char.isWhitespace).reverse.dropWhile
    Char.isWhitespace).reverse

/-- Embeds `handleSubmit` (src/frontend/src/components/SearchBar.js lines
9-14): `if (query.trim() && !isLoading) onSearch(query.trim())`. The
result is the argument passed to `onSearch`, or `none` when `onSearch`
is not invoked. -/
def handleSubmit (query : List Char) (isLoading : Bool) :
    Option (List Char) :=
  if (jsTrim query).isEmpty || isLoading then none
  else some (jsTrim query)

/-- Modelled from the spec: the outcome of query validation in
`SearchIndexClient.query` (§4.4) — the backend search endpoint is not
under src/. -/
inductive QueryOutcome where
  | invalidQuery
  | executed
deriving DecidableEq

/-- Modelled from the spec: `query(q, ...)` rejects an empty or
whitespace-only `q` with InvalidQuery and executes no search; any other
`q` proceeds to execution. -/
def queryValidate (q : List Char) : QueryOutcome :=
  if (jsTrim q).isEmpty then .invalidQuery else .executed

/-- Boolean test that `needle` is a suffix of `hay`; embeds JavaScript
`hay.endsWith(needle)`. -/
def isSuffixB (needle hay : List Char) : Bool :=
  isPrefixB needle.reverse hay.reverse

/-- The part of `s` after the last occurrence of `sep` (the whole of `s`
when `sep` is absent); embeds `s.split(sep).pop()`. -/
def lastComponent (sep : Char) (s : List Char) : List Char :=
  (s.reverse.takeWhile (fun c => !(c == sep))).reverse

/-- Embeds `(document.name || '').split('.').pop().toLowerCase()` from
DocumentCard (src/unnamed/part_004 line 43). -/
def extOf (name : List Char) : List Char :=
  lowerStr (lastComponent '.' name)

/-- Embeds `document.name.toLowerCase().endsWith('.pdf')` from the
DocumentCard inside src/frontend/src/components/SearchResults.js
(lines 187 and 192). -/
def endsWithPdf (name : List Char) : Bool :=
  isSuffixB (".pdf".toList) (lowerStr name)

/-- Embeds `foundOnPage` of the DocumentCard in src/unnamed/part_004
(lines 43-48): `isPDF ? findPageNumber(document, query) : null` where
`isPDF` is `ext === 'pdf'`. -/
def foundOnPageCard (doc : Document) (query : List Char) : Option Nat :=
  if extOf doc.name = "pdf".toList then findPageNumber doc query else none

/-- Embeds `foundOnPage` of the DocumentCard inside SearchResults.js
(lines 186-189): `query && document.name.toLowerCase().endsWith('.pdf')
? findPageNumber(document, query) : null`. -/
def foundOnPageResults (doc : Document) (query : List Char) :
    Option Nat :=
  if !query.isEmpty && endsWithPdf doc.name then findPageNumber doc query
  else none

-- prefix/substring characterizations used throughout

theorem isPrefixB_iff (n h : List Char) :
    isPrefixB n h = true ↔ ∃ t, h = n ++ t := by
  induction n generalizing h with
  | nil => simp [isPrefixB]
  | cons a as ih =>
    cases h with
    | nil =>
      simp [isPrefixB]
    | cons b bs =>
      simp only [isPrefixB, Bool.and_eq_true, beq_iff_eq]
      constructor
      · rintro ⟨rfl, hp⟩
        obtain ⟨t, rfl⟩ := (ih bs).mp hp
        exact ⟨t, rfl⟩
      · rintro ⟨t, ht⟩
        cases ht
        exact ⟨rfl, (ih (as ++ t)).mpr ⟨t, rfl⟩⟩

theorem isInfixB_iff (n h : List Char) :
    isInfixB n h = true ↔ ∃ p t, h = p ++ n ++ t := by
  induction h with
  | nil =>
    simp only [isInfixB, List.isEmpty_iff]
    constructor
    · rintro rfl; exact ⟨[], [], rfl⟩
    · rintro ⟨p, t, ht⟩
      rcases List.append_eq_nil.mp (List.append_eq_nil.mp ht.symm).1 with ⟨_, h2⟩
      exact h2
  | cons c rest ih =>
    simp only [isInfixB, Bool.or_eq_true]
    constructor
    · rintro (hp | hi)
      · obtain ⟨t, ht⟩ := (isPrefixB_iff n (c :: rest)).mp hp
        exact ⟨[], t, by simpa using ht⟩
      · obtain ⟨p, t, rfl⟩ := ih.mp hi
        exact ⟨c :: p, t, rfl⟩
    · rintro ⟨p, t, hpt⟩
      cases p with
      | nil =>
        left
        exact (isPrefixB_iff n (c :: rest)).mpr ⟨t, by simpa using hpt⟩
      | cons x xs =>
        right
        simp only [List.cons_append] at hpt
        injection hpt with h1 h2
        exact ih.mpr ⟨xs, t, h2⟩

/-- Among an ascending-by-`page` list, `find?` returns a match of minimal
page number. -/
theorem find?_sorted_min {p : PageData → Bool} :
    ∀ (pages : List PageData), pages.Pairwise (fun a b => a.page ≤ b.page) →
      ∀ x, pages.find? p = some x → ∀ pd ∈ pages, p pd = true → x.page ≤ pd.page := by
  intro pages
  induction pages with
  | nil => intro _ x hx; simp [List.find?] at hx
  | cons h t ih =>
    intro hp x hx pd hpd hmatch
    rcases List.pairwise_cons.mp hp with ⟨hle, hptail⟩
    by_cases hh : p h = true
    · rw [List.find?_cons_of_pos _ hh] at hx
      injection hx with hx
      subst hx
      rcases List.mem_cons.mp hpd with rfl | hmem
      · exact le_refl _
      · exact hle pd hmem
    · rw [List.find?_cons_of_neg _ hh] at hx
      rcases List.mem_cons.mp hpd with rfl | hmem
      · exact absurd hmatch hh
      · exact ih hptail x hx pd hmem hmatch

/-- Filtering by a predicate implied by the search predicate does not
change the result of `find?`. -/
theorem find?_filter_of_imp {α : Type} (p g : α → Bool)
    (himp : ∀ x, p x = true → g x = true) :
    ∀ l : List α, (l.filter g).find? p = l.find? p := by
  intro l
  induction l with
  | nil => rfl
  | cons a t ih =>
    by_cases hg : g a = true
    · rw [List.filter_cons_of_pos hg]
      by_cases hp : p a = true
      · rw [List.find?_cons_of_pos _ hp, List.find?_cons_of_pos _ hp]
      · rw [List.find?_cons_of_neg _ hp, List.find?_cons_of_neg _ hp, ih]
    · have hp : ¬ p a = true := fun hpa => hg (himp a hpa)
      rw [List.filter_cons_of_neg hg, List.find?_cons_of_neg _ hp, ih]

/-- C1 (amended: restricted to non-empty query strings; the empty query
returns null, see the counterexample and C9): for every document with a
`page_info` list and every non-empty query, `findPageNumber` performs a
case-insensitive substring search across the entries in order and returns
the page of the first matching entry — minimal when `page_info` is
ascending by page — and null when no entry matches; on the spec's example
`[{1,"alpha"},{2,"beta alpha"}]` the query "alpha" yields page 1 and
"gamma" yields null. -/
theorem claim_C1 :
    (∀ (query : List Char) (pd : PageData),
        textMatches query pd = true ↔
          ∃ t, pd.text = some t ∧ t ≠ [] ∧
            ∃ p s, lowerStr t = p ++ lowerStr query ++ s) ∧
    (∀ (doc : Document) (pages : List PageData) (query : List Char),
        doc.page_info = some pages → query ≠ [] →
        ((findPageNumber doc query = none ↔
            ∀ pd ∈ pages, textMatches query pd = false) ∧
         (∀ n, findPageNumber doc query = some n →
            ((∃ pd ∈ pages, textMatches query pd = true ∧ pd.page = n) ∧
             (pages.Pairwise (fun a b => a.page ≤ b.page) →
                ∀ pd ∈ pages, textMatches query pd = true → n ≤ pd.page))))) ∧
    findPageNumber alphaDoc ("alpha".toList) = some 1 ∧
    findPageNumber alphaDoc ("gamma".toList) = none := by
  refine ⟨?_, ?_, by decide, by decide⟩
  · intro query pd
    cases ht : pd.text with
    | none => simp [textMatches, ht]
    | some t =>
      simp [textMatches, ht, Bool.and_eq_true, isInfixB_iff,
        List.isEmpty_iff]
  · intro doc pages query hpi hq
    obtain ⟨name, pinfo⟩ := doc
    simp only at hpi
    subst hpi
    have hq' : query.isEmpty = false := by
      cases query with
      | nil => exact absurd rfl hq
      | cons c cs => rfl
    constructor
    · simp [findPageNumber, hq', Option.map_eq_none', List.find?_eq_none]
    · intro n hn
      simp only [findPageNumber, hq', Bool.false_eq_true, if_false,
        Option.map_eq_some'] at hn
      obtain ⟨x, hfind, hxpage⟩ := hn
      constructor
      · exact ⟨x, List.mem_of_find?_eq_some hfind,
          List.find?_some hfind, hxpage⟩
      · intro hsorted pd hpd hmatch
        have := find?_sorted_min pages hsorted x hfind pd hpd hmatch
        omega

/-- Witness for C1: instantiation at the spec's example page list with the
non-empty query "alpha". -/
theorem claim_C1_witness :
    (findPageNumber alphaDoc ("alpha".toList) = none ↔
        ∀ pd ∈ alphaPages, textMatches ("alpha".toList) pd = false) ∧
    (∀ n, findPageNumber alphaDoc ("alpha".toList) = some n →
        ((∃ pd ∈ alphaPages, textMatches ("alpha".toList) pd = true ∧
            pd.page = n) ∧
         (alphaPages.Pairwise (fun a b => a.page ≤ b.page) →
            ∀ pd ∈ alphaPages,
              textMatches ("alpha".toList) pd = true → n ≤ pd.page))) :=
  claim_C1.2.1 alphaDoc alphaPages ("alpha".toList) rfl (by decide)

/-- C1 counterexample: at the empty query, the first page's text contains
the query as a (case-insensitive) substring, yet `findPageNumber` returns
null — contradicting the claim's quantification over every query string. -/
theorem claim_C1_cex :
    lowerStr ("alpha".toList) =
      [] ++ lowerStr ([] : List Char) ++ ("alpha".toList) ∧
    findPageNumber ⟨"doc.pdf".toList, some [⟨1, some ("alpha".toList)⟩]⟩
      [] = none := by
  exact ⟨rfl, rfl⟩

/-- C9: `findPageNumber` returns null whenever the query is the empty
string, for every document — even when `page_info` is non-empty. -/
theorem claim_C9 : ∀ doc : Document, findPageNumber doc [] = none := by
  intro doc
  obtain ⟨name, pinfo⟩ := doc
  cases pinfo <;> rfl

/-- C10: entries of `page_info` whose `text` is missing/null or empty never
match, and removing them from `page_info` never changes the result of
`findPageNumber` (they are skipped, not errors and not matches); the
embedded function is total by construction. -/
theorem claim_C10 :
    (∀ (query : List Char) (pd : PageData),
        (pd.text = none ∨ pd.text = some []) →
        textMatches query pd = false) ∧
    (∀ (name : List Char) (pages : List PageData) (query : List Char),
        findPageNumber ⟨name, some pages⟩ query =
          findPageNumber ⟨name, some (pages.filter keepText)⟩ query) := by
  constructor
  · rintro query pd (h | h) <;> simp [textMatches, h]
  · intro name pages query
    simp only [findPageNumber]
    by_cases hq : query.isEmpty = true
    · rw [if_pos hq, if_pos hq]
    · rw [if_neg hq, if_neg hq]
      have himp : ∀ pd, textMatches query pd = true → keepText pd = true := by
        intro pd hm
        cases ht : pd.text with
        | none => simp [textMatches, ht] at hm
        | some t =>
          simp only [textMatches, ht, Bool.and_eq_true] at hm
          simp [keepText, ht, hm.1]
      rw [find?_filter_of_imp (textMatches query) keepText himp pages]

/-- Witness for C10: concrete entries with missing and with empty text are
both skipped. -/
theorem claim_C10_witness :
    textMatches ("alpha".toList) ⟨3, none⟩ = false ∧
    textMatches ("alpha".toList) ⟨4, some []⟩ = false :=
  ⟨claim_C10.1 ("alpha".toList) ⟨3, none⟩ (Or.inl rfl),
   claim_C10.1 ("alpha".toList) ⟨4, some []⟩ (Or.inr rfl)⟩

/-- Splitting an encoded id at the first delimiter recovers the pair, as
long as the table name does not contain the delimiter. -/
theorem splitFirst_encode (t r : List Char) (ht : ':' ∉ t) :
    splitFirst ':' (encode t r) = some (t, r) := by
  induction t with
  | nil => simp [encode, splitFirst]
  | cons c cs ih =>
    have hc : ¬ c = ':' := fun h => ht (h ▸ List.mem_cons_self c cs)
    have hcs : ':' ∉ cs := fun h => ht (List.mem_cons_of_mem c h)
    simp only [encode, List.cons_append, splitFirst, if_neg hc]
    rw [show (cs.append (':' :: r)) = encode cs r from rfl, ih hcs]
    rfl

/-- C3: composite document identity: encode/decode round-trip on every
configured table, encode is injective on delimiter-free components (so
ids are globally unique across source tables), and every encoded id of a
configured table is recognized by the frontend's `getSource`. -/
theorem claim_C3 :
    (∀ t r, t ∈ configuredTables → decode (encode t r) = some (t, r)) ∧
    (∀ t₁ r₁ t₂ r₂, ':' ∉ t₁ → ':' ∉ t₂ →
        encode t₁ r₁ = encode t₂ r₂ → t₁ = t₂ ∧ r₁ = r₂) ∧
    (∀ t r, t ∈ configuredTables →
        (getSource (encode t r)).isSome = true) := by
  refine ⟨?_, ?_, ?_⟩
  · intro t r ht
    have hd : ':' ∉ t := by
      simp only [configuredTables, List.mem_cons, List.not_mem_nil,
        or_false] at ht
      rcases ht with rfl | rfl | rfl <;> decide
    simp only [decode, splitFirst_encode t r hd]
    rw [if_pos ht]
  · intro t₁ r₁ t₂ r₂ h₁ h₂ heq
    have e₁ := splitFirst_encode t₁ r₁ h₁
    have e₂ := splitFirst_encode t₂ r₂ h₂
    rw [heq, e₂] at e₁
    have e := Option.some.inj e₁
    exact ⟨(congrArg Prod.fst e).symm, (congrArg Prod.snd e).symm⟩
  · intro t r ht
    simp only [configuredTables, List.mem_cons, List.not_mem_nil,
      or_false] at ht
    rcases ht with rfl | rfl | rfl <;> rfl

/-- Witness for C3: the round-trip, injectivity and `getSource` facts at
concrete identities such as `VESSEL_CERTIFICATES:456`. -/
theorem claim_C3_witness :
    decode (encode ("VESSEL_CERTIFICATES".toList) ("456".toList)) =
      some ("VESSEL_CERTIFICATES".toList, "456".toList) ∧
    ("FORMS_MASTER".toList = "FORMS_MASTER".toList ∧
      "456".toList = "456".toList) ∧
    (getSource (encode ("SurveyCertificates".toList) ("7".toList))).isSome
      = true :=
  ⟨claim_C3.1 _ _ (by decide),
   claim_C3.2.1 ("FORMS_MASTER".toList) ("456".toList)
     ("FORMS_MASTER".toList) ("456".toList) (by decide) (by decide) rfl,
   claim_C3.2.2 _ _ (by decide)⟩

/-- A successful extraction always increments `indexed` by one, whether or
not the batch is flushed. -/
theorem processDoc_extracted_stats (s : RunState) (t : List Char) :
    (processDoc s (.extracted t)).stats =
      { s.stats with indexed := s.stats.indexed + 1 } := by
  simp only [processDoc]
  split <;> rfl

/-- The counters after the loop: `total` is never touched, and each
counter grows by the number of outcomes it counts. -/
theorem foldl_processDoc_stats :
    ∀ (l : List StepOutcome) (s : RunState),
      (l.foldl processDoc s).stats =
        ⟨s.stats.total,
         s.stats.indexed + l.countP isIndexedOutcome,
         s.stats.failed + l.countP isFailedOutcome,
         s.stats.skipped + l.countP isSkippedOutcome⟩ := by
  intro l
  induction l with
  | nil => intro s; simp [List.countP_nil]
  | cons o t ih =>
    intro s
    rw [List.foldl_cons, ih]
    cases o with
    | fetchFailed =>
      simp [processDoc, List.countP_cons, isIndexedOutcome,
        isFailedOutcome, isSkippedOutcome, RunStats.mk.injEq]
      omega
    | extractFailed =>
      simp [processDoc, List.countP_cons, isIndexedOutcome,
        isFailedOutcome, isSkippedOutcome, RunStats.mk.injEq]
      omega
    | unsupported =>
      simp [processDoc, List.countP_cons, isIndexedOutcome,
        isFailedOutcome, isSkippedOutcome, RunStats.mk.injEq]
      omega
    | extracted txt =>
      rw [processDoc_extracted_stats]
      simp [List.countP_cons, isIndexedOutcome, isFailedOutcome,
        isSkippedOutcome, RunStats.mk.injEq]
      omega

/-- The three counting predicates partition the outcomes. -/
theorem countP_outcomes_partition (l : List StepOutcome) :
    l.countP isIndexedOutcome + l.countP isFailedOutcome +
      l.countP isSkippedOutcome = l.length := by
  induction l with
  | nil => rfl
  | cons o t ih =>
    cases o <;>
      simp [List.countP_cons, isIndexedOutcome, isFailedOutcome,
        isSkippedOutcome] <;>
      omega

/-- C2: run accounting: for every indexing run that runs to completion the
final statistics satisfy `total = indexed + failed + skipped`; every
enumerated document is counted by exactly one counter. -/
theorem claim_C2 :
    ∀ docs : List StepOutcome,
      (index_documents docs).1.total =
        (index_documents docs).1.indexed +
          (index_documents docs).1.failed +
          (index_documents docs).1.skipped := by
  intro docs
  simp only [index_documents, foldl_processDoc_stats]
  have h := countP_outcomes_partition docs
  omega

/-- C4 (amended: an extractor exception is caught at the dispatch boundary
and converted to a skip outcome — counted in the run's `skipped` counter
together with unsupported formats, not in `failed` — and it never
propagates or aborts processing of the remaining documents): inserting an
exception-raising document into a run adds exactly one to `skipped` and
one to `total`, leaves `failed` and `indexed` unchanged, and the
documents after it are still processed and counted. -/
theorem claim_C4 :
    ∀ (pre post : List StepOutcome),
      (index_documents (pre ++ StepOutcome.extractFailed :: post)).1.skipped
          = (index_documents (pre ++ post)).1.skipped + 1 ∧
      (index_documents (pre ++ StepOutcome.extractFailed :: post)).1.failed
          = (index_documents (pre ++ post)).1.failed ∧
      (index_documents (pre ++ StepOutcome.extractFailed :: post)).1.indexed
          = (index_documents (pre ++ post)).1.indexed ∧
      (index_documents (pre ++ StepOutcome.extractFailed :: post)).1.total
          = (index_documents (pre ++ post)).1.total + 1 := by
  intro pre post
  simp only [index_documents, foldl_processDoc_stats]
  simp [List.countP_append, List.countP_cons, isIndexedOutcome,
    isFailedOutcome, isSkippedOutcome, List.length_append]
  omega

/-- C4 counterexample: a run of one document whose extractor raises ends
with `failed = 0` and `skipped = 1` — the exception is counted in
`skipped`, not in `failed` as the claim states. -/
theorem claim_C4_cex :
    (index_documents [StepOutcome.extractFailed]).1.failed = 0 ∧
    (index_documents [StepOutcome.extractFailed]).1.skipped = 1 :=
  ⟨rfl, rfl⟩

/-- C7: truncation is a hard cutoff applied after cleaning, uniformly for
every extraction outcome: the post-processed content never exceeds the
configured maximum character length. -/
theorem claim_C7 :
    (∀ (text : List Char) (maxLength : Nat),
        (truncate_text text maxLength).length ≤ maxLength) ∧
    (∀ raw : List Char,
        (truncate_text (clean_text raw) MAX_CONTENT_LENGTH).length ≤
          MAX_CONTENT_LENGTH) := by
  have h : ∀ (text : List Char) (n : Nat),
      (truncate_text text n).length ≤ n := by
    intro text n
    simp only [truncate_text, List.length_take]
    exact min_le_left _ _
  exact ⟨h, fun raw => h _ _⟩

/-- The panel invariant: the number of in-flight requests is 1 exactly
while `isIndexing`, 0 otherwise; it is preserved by every event. -/
theorem panel_invariant :
    ∀ (events : List PanelEvent) (s : PanelState),
      s.active = (if s.isIndexing then 1 else 0) →
      (events.foldl panelStep s).active =
        (if (events.foldl panelStep s).isIndexing then 1 else 0) := by
  intro events
  induction events with
  | nil => intro s h; exact h
  | cons e t ih =>
    intro s h
    rw [List.foldl_cons]
    apply ih
    cases e with
    | trigger =>
      by_cases hb : s.isIndexing = true
      · simp only [panelStep, hb, if_pos]
        rw [hb] at h
        simpa using h
      · simp only [Bool.not_eq_true] at hb
        rw [hb] at h
        simp only [panelStep, hb]
        simp at h ⊢
        omega
    | complete =>
      simp only [panelStep]
      by_cases hb : s.isIndexing = true
      · rw [hb] at h
        simp at h ⊢
        omega
      · simp only [Bool.not_eq_true] at hb
        rw [hb] at h
        simp at h ⊢
        omega

/-- C5: mutual exclusion of indexing runs: along every event trace of the
panel at most one indexing request is ever in flight, a trigger while a
run is in progress changes nothing (rejected immediately, not queued);
and the backend run-state flag answers `busy` to a request while
`running` — staying on the single running run — and starts the one run
from `idle`. -/
theorem claim_C5 :
    (∀ events : List PanelEvent,
        (events.foldl panelStep panelInit).active ≤ 1) ∧
    (∀ s : PanelState, s.isIndexing = true →
        panelStep s PanelEvent.trigger = s) ∧
    postIndex RunFlag.running = (RunFlag.running, IndexResponse.busy) ∧
    postIndex RunFlag.idle = (RunFlag.running, IndexResponse.started) := by
  refine ⟨?_, ?_, rfl, rfl⟩
  · intro events
    have h := panel_invariant events panelInit rfl
    rw [h]
    split <;> omega
  · intro s hs
    simp [panelStep, hs]

/-- Witness for C5: a trigger in the indexing state is dropped unchanged. -/
theorem claim_C5_witness :
    panelStep ⟨true, 1⟩ PanelEvent.trigger = ⟨true, 1⟩ :=
  claim_C5.2.1 ⟨true, 1⟩ rfl

/-- A string of whitespace trims to the empty string. -/
theorem jsTrim_eq_nil_of_all_ws (q : List Char)
    (h : ∀ c ∈ q, c.isWhitespace = true) : jsTrim q = [] := by
  have h1 : q.dropWhile Char.isWhitespace = [] := by
    induction q with
    | nil => rfl
    | cons c cs ih =>
      have hc := h c (List.mem_cons_self c cs)
      simp only [List.dropWhile, hc]
      exact ih fun x hx => h x (List.mem_cons_of_mem c hx)
  simp [jsTrim, h1]

/-- C6: empty-query rejection: every empty or whitespace-only query is
rejected with InvalidQuery and no search is executed, and at the client
boundary `handleSubmit` never invokes `onSearch` on it; whenever
`handleSubmit` does invoke `onSearch`, the argument is the trimmed query
and it is non-empty. -/
theorem claim_C6 :
    (∀ q : List Char, (∀ c ∈ q, c.isWhitespace = true) →
        queryValidate q = QueryOutcome.invalidQuery ∧
        ∀ b, handleSubmit q b = none) ∧
    (∀ (q : List Char) (b : Bool) (s : List Char),
        handleSubmit q b = some s → s = jsTrim q ∧ s ≠ []) := by
  constructor
  · intro q h
    have ht : jsTrim q = [] := jsTrim_eq_nil_of_all_ws q h
    exact ⟨by simp [queryValidate, ht], fun b => by simp [handleSubmit, ht]⟩
  · intro q b s hs
    unfold handleSubmit at hs
    by_cases hc : ((jsTrim q).isEmpty || b) = true
    · rw [if_pos hc] at hs
      exact absurd hs (by simp)
    · rw [if_neg hc] at hs
      simp only [Bool.or_eq_true, not_or] at hc
      obtain ⟨h1, _⟩ := hc
      have hse : s = jsTrim q := (Option.some.inj hs).symm
      refine ⟨hse, ?_⟩
      rw [hse]
      intro hnil
      exact h1 (by simp [hnil])

/-- Witness for C6: the all-whitespace query "   " is rejected and never
submitted. -/
theorem claim_C6_witness :
    queryValidate ("   ".toList) = QueryOutcome.invalidQuery ∧
    ∀ b, handleSubmit ("   ".toList) b = none :=
  claim_C6.1 ("   ".toList) (by decide)

theorem isSuffixB_iff (n h : List Char) :
    isSuffixB n h = true ↔ ∃ p, h = p ++ n := by
  unfold isSuffixB
  rw [isPrefixB_iff]
  constructor
  · rintro ⟨t, ht⟩
    refine ⟨t.reverse, ?_⟩
    have h2 := congrArg List.reverse ht
    simpa using h2
  · rintro ⟨p, rfl⟩
    exact ⟨p.reverse, by simp⟩

/-- The first element surviving `dropWhile` falsifies the predicate. -/
theorem dropWhile_head_false {α : Type} (p : α → Bool) :
    ∀ (l : List α) (x : α) (rest : List α),
      l.dropWhile p = x :: rest → p x = false := by
  intro l
  induction l with
  | nil => intro x rest h; simp [List.dropWhile] at h
  | cons a t ih =>
    intro x rest h
    by_cases hp : p a = true
    · simp only [List.dropWhile, hp] at h
      exact ih x rest h
    · simp only [Bool.not_eq_true] at hp
      simp only [List.dropWhile, hp] at h
      injection h with h1 h2
      rw [← h1]
      exact hp

/-- If the final dot-separated component of a name lowercases to "pdf",
then either the lowercased name ends in ".pdf" or the name has no dot and
lowercases to exactly "pdf". -/
theorem extOf_pdf_cases (name : List Char)
    (h : extOf name = "pdf".toList) :
    endsWithPdf name = true ∨ lowerStr name = "pdf".toList := by
  have hsplit := List.takeWhile_append_dropWhile
    (p := fun c => !(c == '.')) (l := name.reverse)
  cases hd : name.reverse.dropWhile (fun c => !(c == '.')) with
  | nil =>
    right
    have htk : name.reverse.takeWhile (fun c => !(c == '.')) =
        name.reverse := by
      rw [hd, List.append_nil] at hsplit
      exact hsplit
    have hname : lastComponent '.' name = name := by
      unfold lastComponent
      rw [htk, List.reverse_reverse]
    unfold extOf at h
    rw [hname] at h
    exact h
  | cons x d' =>
    left
    have hx : (fun c => !(c == '.')) x = false :=
      dropWhile_head_false _ name.reverse x d' hd
    have hx' : x = '.' := by simpa using hx
    subst hx'
    have hrev : name.reverse =
        name.reverse.takeWhile (fun c => !(c == '.')) ++ '.' :: d' := by
      rw [hd] at hsplit
      exact hsplit.symm
    have hname : name = d'.reverse ++ '.' ::
        (name.reverse.takeWhile (fun c => !(c == '.'))).reverse := by
      have h2 := congrArg List.reverse hrev
      simpa using h2
    have hm : lowerStr
        ((name.reverse.takeWhile (fun c => !(c == '.'))).reverse) =
        "pdf".toList := h
    unfold endsWithPdf
    rw [isSuffixB_iff]
    refine ⟨lowerStr d'.reverse, ?_⟩
    rw [hname]
    unfold lowerStr at hm ⊢
    simp only [List.map_append, List.map_cons]
    rw [hm]
    congr 1

/-- C8 (amended: the SearchResults-embedded card never attaches a page to
a filename that does not end in ".pdf"; the part_004 card tests whether
the final dot-separated component lowercases to "pdf", which additionally
admits a dot-free filename equal to "pdf" — see the counterexample): for
every hit whose filename neither ends in ".pdf" (case-insensitively) nor
lowercases to exactly "pdf", neither DocumentCard computes or attaches a
page number. -/
theorem claim_C8 :
    ∀ (doc : Document) (query : List Char),
      endsWithPdf doc.name = false →
      lowerStr doc.name ≠ "pdf".toList →
      foundOnPageCard doc query = none ∧
        foundOnPageResults doc query = none := by
  intro doc query h1 h2
  constructor
  · unfold foundOnPageCard
    rw [if_neg]
    intro hext
    rcases extOf_pdf_cases doc.name hext with hc | hc
    · rw [h1] at hc
      exact Bool.false_ne_true hc
    · exact h2 hc
  · unfold foundOnPageResults
    rw [if_neg]
    simp [h1]

/-- Witness for C8: a .docx hit gets no page number from either card,
even with matching `page_info`. -/
theorem claim_C8_witness :
    foundOnPageCard ⟨"report.docx".toList, some alphaPages⟩
      ("alpha".toList) = none ∧
    foundOnPageResults ⟨"report.docx".toList, some alphaPages⟩
      ("alpha".toList) = none :=
  claim_C8 ⟨"report.docx".toList, some alphaPages⟩ ("alpha".toList)
    (by decide) (by decide)

/-- C8 counterexample: the filename "pdf" does not end in ".pdf", yet the
part_004 DocumentCard computes a page number for it. -/
theorem claim_C8_cex :
    endsWithPdf ("pdf".toList) = false ∧
    foundOnPageCard ⟨"pdf".toList, some [⟨1, some ("alpha".toList)⟩]⟩
      ("alpha".toList) = some 1 :=
  ⟨rfl, rfl⟩

end SearchTool
